import Mathlib

/-!
Verification of the date-resolution logic of `scripts/generate_ics.js`
(repository `jonamarkin/ose-calendar`).

The script fetches a markdown event list, extracts entries, resolves each
free-form date phrase with `parseDate(dateStr, year)`, and writes a JSON
file and an ICS feed.  This file gives a shallow embedding of `parseDate`
(lines 39-125 of `scripts/generate_ics.js`) and of the zero-event guard of
`main` (lines 224-246), and proves properties of the embedding.

Strings are modelled as `List Char` (JS strings are ASCII here); JS `Date`
values are modelled as normalized proleptic-Gregorian triples `CDate`
(year, month 1-12, day 1-monthLength), with the JS overflow semantics of
`new Date(y, m, d)`, `setFullYear` and `setDate` reproduced by an explicit
normalization function.
-/

/-- ASCII lower-casing of a character list; models `String.prototype.toLowerCase`
on the ASCII inputs the script handles. -/
def lowerL (l : List Char) : List Char := l.map Char.toLower

/-- `containsSub hay needle` models `hay.includes(needle)` on JS strings. -/
def containsSub (hay needle : List Char) : Bool :=
  if needle.isPrefixOf hay then true
  else
    match hay with
    | [] => false
    | _ :: t => containsSub t needle

/-- `replaceFirst hay pat` removes the first occurrence of `pat` from `hay`;
models `hay.replace(pat, "")` for a plain-string pattern. -/
def replaceFirst (hay pat : List Char) : List Char :=
  if pat.isPrefixOf hay then hay.drop pat.length
  else
    match hay with
    | [] => []
    | c :: t => c :: replaceFirst t pat

/-- Models `String.prototype.trim` (ASCII whitespace). -/
def trimL (l : List Char) : List Char :=
  ((l.dropWhile Char.isWhitespace).reverse.dropWhile Char.isWhitespace).reverse

/-- Is `s` followed by `t` one of the ordinal suffixes `st`, `nd`, `rd`, `th`?
(The JS regex is case-sensitive.) -/
def isOrdPair (s t : Char) : Bool :=
  (s == 's' && t == 't') || (s == 'n' && t == 'd') ||
  (s == 'r' && t == 'd') || (s == 't' && t == 'h')

/-- Models `dateStr.replace(/(\d+)(st|nd|rd|th)/g, "$1")`, line 41 of
`generate_ics.js`: every ordinal suffix directly following a digit is
deleted.  (The suffix can only attach to the last digit of a run, and
suffixes never start with a digit, so a left-to-right scan that drops a
suffix pair right after a digit is exactly the regex's global replace.) -/
def stripOrd : List Char → List Char
  | [] => []
  | [c] => [c]
  | [c, d] => [c, d]
  | c :: s :: t :: rest =>
    if c.isDigit && isOrdPair s t then c :: stripOrd rest
    else c :: stripOrd (s :: t :: rest)

/-- Numeric value of a decimal digit character. -/
def digitVal (c : Char) : Nat := c.toNat - '0'.toNat

/-- Accumulates the value of a maximal digit run. -/
def readNum : List Char → Nat → Nat
  | [], acc => acc
  | c :: cs, acc => if c.isDigit then readNum cs (acc * 10 + digitVal c) else acc

/-- Value of the first (maximal) digit run in `l`, if any; models
`str.match(/(\d+)/)` followed by `parseInt`. -/
def firstNum : List Char → Option Nat
  | [] => none
  | c :: cs => if c.isDigit then some (readNum cs (digitVal c)) else firstNum cs

/-- JS word character (`\w`, i.e. `[A-Za-z0-9_]`). -/
def isWordChar (c : Char) : Bool := c.isAlphanum || c == '_'

/-- If `l` starts with exactly four digits whose right side is a word
boundary, return their value. -/
def fourDigitAt : List Char → Option Nat
  | a :: b :: c :: d :: rest =>
    if a.isDigit && b.isDigit && c.isDigit && d.isDigit &&
        (match rest with | [] => true | e :: _ => !isWordChar e) then
      some (digitVal a * 1000 + digitVal b * 100 + digitVal c * 10 + digitVal d)
    else none
  | _ => none

/-- Scan for the first match of `/\b(\d{4})\b/`; `prevIsWord` records whether
the previous character was a word character (no boundary there). -/
def findYearGo (prevIsWord : Bool) : List Char → Option Nat
  | [] => none
  | c :: cs =>
    match (if prevIsWord then none else fourDigitAt (c :: cs)) with
    | some n => some n
    | none => findYearGo (isWordChar c) cs

/-- Models `dateStr.match(/\b(\d{4})\b/)` + `parseInt`, lines 52-54. -/
def findYear (l : List Char) : Option Nat := findYearGo false l

/-- Split on every occurrence of the three-character separator `" - "`;
models `dateStr.split(" - ")` (leftmost, non-overlapping). -/
def splitDash : List Char → List (List Char)
  | a :: b :: c :: rest =>
    if a == ' ' && b == '-' && c == ' ' then [] :: splitDash rest
    else
      match splitDash (b :: c :: rest) with
      | [] => [[a]]
      | h :: t => (a :: h) :: t
  | l => [l]

/-- Split on every occurrence of the four-character separator `" to "`;
models `dateStr.split(" to ")`. -/
def splitTo : List Char → List (List Char)
  | a :: b :: c :: d :: rest =>
    if a == ' ' && b == 't' && c == 'o' && d == ' ' then [] :: splitTo rest
    else
      match splitTo (b :: c :: d :: rest) with
      | [] => [[a]]
      | h :: t => (a :: h) :: t
  | l => [l]

/-! ## Calendar dates with JS `Date` normalization semantics -/

/-- Proleptic-Gregorian leap-year rule (what JS `Date` uses). -/
def isLeap (y : Int) : Bool :=
  (Int.emod y 4 == 0 && Int.emod y 100 != 0) || Int.emod y 400 == 0

/-- Length of month `m` (1-12) in year `y`. -/
def monthLen (y : Int) (m : Nat) : Nat :=
  if m = 2 then (if isLeap y then 29 else 28)
  else if m = 4 ∨ m = 6 ∨ m = 9 ∨ m = 11 then 30
  else 31

/-- A normalized calendar date: the observable state of a JS `Date`
(at midnight, as the script always uses). -/
structure CDate where
  year : Int
  month : Nat
  day : Nat
deriving DecidableEq, Repr

/-- Fuel-driven forward normalization: carry an oversized day-of-month into
later months/years, as JS `Date` does.  The fuel is only a structural
termination device; `normCarry` supplies enough of it (each carry step
consumes at least 28 of the day count), and `normCarryGo_congr` below shows
the result does not depend on it. -/
def normCarryGo : Nat → Int → Nat → Nat → CDate
  | 0, y, m, d => ⟨y, m, d⟩
  | fuel + 1, y, m, d =>
    if d ≤ monthLen y m then ⟨y, m, d⟩
    else if m = 12 then normCarryGo fuel (y + 1) 1 (d - 31)
    else normCarryGo fuel y (m + 1) (d - monthLen y m)

/-- Normalization of `(y, m, d)` with `1 ≤ m ≤ 12` and `d ≥ 1`. -/
def normCarry (y : Int) (m d : Nat) : CDate := normCarryGo d y m d

/-- Fuel-driven backward normalization: borrow a day count `d ≤ 0` from
earlier months/years, as JS `Date` does for day `0`. -/
def normBorrowGo : Nat → Int → Nat → Int → CDate
  | 0, y, m, d => normCarry y m d.toNat
  | fuel + 1, y, m, d =>
    if 1 ≤ d then normCarry y m d.toNat
    else if m = 1 then normBorrowGo fuel (y - 1) 12 (d + 31)
    else normBorrowGo fuel y (m - 1) (d + monthLen y (m - 1))

/-- Full normalization for any integer day count. -/
def normBorrow (y : Int) (m : Nat) (d : Int) : CDate :=
  normBorrowGo (1 - d).toNat y m d

/-- Models `new Date(y, monthNumber - 1, d)` (the script's constructor
calls, lines 89-90 and 115): overflowing or zero days roll over, and the
two-digit-year rule maps `0..99` to `1900..1999`. -/
def jsDate (y : Int) (m : Nat) (d : Nat) : CDate :=
  let y' := if 0 ≤ y ∧ y ≤ 99 then y + 1900 else y
  normBorrow y' m (d : Int)

/-- Models `date.setFullYear(Y)` (line 93): the year component is replaced
and the (month, day) components renormalize (Feb 29 in a non-leap year
becomes Mar 1). -/
def setYear (x : CDate) (Y : Int) : CDate := normCarry Y x.month x.day

/-- Models `date.setDate(date.getDate() + 1)` (lines 97 and 117). -/
def nextDay (x : CDate) : CDate := normCarry x.year x.month (x.day + 1)

/-- Models the JS `<` comparison on `Date` objects (timestamp order):
lexicographic order on normalized triples. -/
def dltb (a b : CDate) : Bool :=
  if a.year < b.year then true
  else if b.year < a.year then false
  else if a.month < b.month then true
  else if b.month < a.month then false
  else decide (a.day < b.day)

/-- Left-pad a digit string with zeros. -/
def padLeft (w : Nat) (s : List Char) : List Char :=
  List.replicate (w - s.length) '0' ++ s

/-- Decimal digits of a natural number. -/
def natDigits (n : Nat) : List Char := (Nat.repr n).data

/-- Models `date.toISOString().split('T')[0]` (lines 96, 98, 116, 118):
`YYYY-MM-DD`, with the expanded-year forms of `toISOString` outside
`0..9999`. -/
def isoOf (x : CDate) : String :=
  let ys :=
    if 0 ≤ x.year ∧ x.year ≤ 9999 then padLeft 4 (natDigits x.year.toNat)
    else if x.year < 0 then '-' :: padLeft 6 (natDigits (-x.year).toNat)
    else '+' :: padLeft 6 (natDigits x.year.toNat)
  String.mk (ys ++ '-' :: padLeft 2 (natDigits x.month) ++
    '-' :: padLeft 2 (natDigits x.day))

/-! ## The date resolver `parseDate` (lines 39-125 of `generate_ics.js`) -/

/-- The `monthMap` of lines 47-50, in its (insertion-ordered) key order. -/
def monthTable : List (List Char × Nat) :=
  [("january".data, 1), ("february".data, 2), ("march".data, 3),
   ("april".data, 4), ("may".data, 5), ("june".data, 6),
   ("july".data, 7), ("august".data, 8), ("september".data, 9),
   ("october".data, 10), ("november".data, 11), ("december".data, 12)]

/-- The month search of the range branch (lines 69-72): the loop runs over
the whole table without `break`, so a later table entry overwrites an
earlier one. -/
def findMonthLast (part : List Char) : Option Nat :=
  monthTable.foldl
    (fun acc p => if containsSub (lowerL part) p.1 then some p.2 else acc) none

/-- The month search with `break` (whole-string fallback, lines 74-81, and
the single-day branch, lines 104-110): the first table entry contained in
the string wins. -/
def findMonthFirst (str : List Char) : Option Nat :=
  (monthTable.find? (fun p => containsSub (lowerL str) p.1)).map Prod.snd

/-- Start month of a range part (lines 66-81): the part's own search, else
the first-match search over the whole (processed) phrase. -/
def startMonthFor (t a : List Char) : Option Nat :=
  match findMonthLast a with
  | some m => some m
  | none => findMonthFirst t

/-- End month of a range part (line 83): the part's own search, else the
start month. -/
def endMonthFor (t a b : List Char) : Option Nat :=
  match findMonthLast b with
  | some m => some m
  | none => startMonthFor t a

/-- Lines 41-56: ordinal stripping, the "not announced yet" early return
(modelled as `none`), and the year override (the matched 4-digit value
replaces the year argument and the literal `", <year>"` is removed). -/
def preprocess (s : String) (y : Int) : Option (List Char × Int) :=
  let d1 := stripOrd s.data
  if containsSub (lowerL d1) "not announced yet".data then none
  else
    match findYear d1 with
    | some n => some (replaceFirst d1 (", ".data ++ (Nat.repr n).data), (n : Int))
    | none => some (d1, y)

/-- Line 58: is a range separator present? (case-sensitive, `" - "` first). -/
def hasSep (t : List Char) : Bool :=
  containsSub t " - ".data || containsSub t " to ".data

/-- Lines 58-88: split on the chosen separator, require exactly two parts,
trim them, resolve both months and both day numbers. Returns
`(startMonth, startDay, endMonth, endDay)`. -/
def rangeComps (t : List Char) : Option (Nat × Nat × Nat × Nat) :=
  let parts := if containsSub t " - ".data then splitDash t else splitTo t
  match parts with
  | [a, b] =>
    let startPart := trimL a
    let endPart := trimL b
    match firstNum startPart, firstNum endPart,
        startMonthFor t startPart, endMonthFor t startPart endPart with
    | some sd, some ed, some sm, some em => some (sm, sd, em, ed)
    | _, _, _, _ => none
  | _ => none

/-- Lines 89-100 minus the final `setDate(+1)`: construct both dates and
apply the year-rollover rule (`endDate < startDate && endMonth < startMonth`
fires `endDate.setFullYear(year + 1)`).  Returns `(startDate, endDate)`
with the end date still inclusive. -/
def rangeCore (t : List Char) (y : Int) : Option (CDate × CDate) :=
  match rangeComps t with
  | some (sm, sd, em, ed) =>
    let startDate := jsDate y sm sd
    let endDate := jsDate y em ed
    let endDate' :=
      if dltb endDate startDate && decide (em < sm) then setYear endDate (y + 1)
      else endDate
    some (startDate, endDate')
  | none => none

/-- Lines 104-115 minus the final `setDate(+1)`: single-day branch. -/
def singleCore (t : List Char) (y : Int) : Option CDate :=
  match findMonthFirst t, firstNum t with
  | some m, some d => some (jsDate y m d)
  | _, _ => none

/-- The resolver up to (but not including) the uniform exclusive-end
increment: the resolved start date and the inclusive last calendar day. -/
def parseStartLast (s : String) (y : Int) : Option (CDate × CDate) :=
  match preprocess s y with
  | none => none
  | some (t, y') =>
    if hasSep t then rangeCore t y'
    else (singleCore t y').map (fun d => (d, d))

/-- `parseDate` at the level of `CDate` values: in both branches the code
returns the start date and the end date advanced by one day
(lines 96-100 and 116-120). -/
def parseDateDates (s : String) (y : Int) : Option (CDate × CDate) :=
  (parseStartLast s y).map (fun p => (p.1, nextDay p.2))

/-- The full `parseDate(dateStr, year)` of lines 39-125: ISO `YYYY-MM-DD`
strings, `none` modelling the `{startDate: null, endDate: null}` result. -/
def parseDate (s : String) (y : Int) : Option (String × String) :=
  (parseDateDates s y).map (fun p => (isoOf p.1, isoOf p.2))

/-- `parseDate`'s default parameter (line 39:
`year = new Date().getFullYear()`): an omitted year argument is filled with
the ambient current year. -/
def parseDateDefaulted (s : String) (yearArg : Option Int) (currentYear : Int) :
    Option (String × String) :=
  parseDate s (yearArg.getD currentYear)

/-! ## The zero-event guard of `main` (lines 193-246) -/

/-- One extracted markdown entry (the five capture groups of the
`eventPattern` regex, line 193); the extraction itself is upstream of the
resolver. -/
structure EventEntry where
  name : String
  url : String
  date : String
  mode : String
  location : String

/-- One resolved output record (lines 205-216 / 233-241). -/
structure EventOut where
  name : String
  url : String
  start_date : String
  end_date : String
  mode : String
  location : String
  original_date : String

/-- Lines 203-216: resolve one entry; an unresolved date drops the entry. -/
def resolveEntry (y : Int) (e : EventEntry) : Option EventOut :=
  match parseDate e.date y with
  | some (s, en) => some ⟨e.name, e.url, s, en, e.mode, e.location, e.date⟩
  | none => none

/-- The loop of lines 200-222 over all extracted entries. -/
def resolveEvents (entries : List EventEntry) (y : Int) : List EventOut :=
  entries.filterMap (resolveEntry y)

/-- Lines 224-246 of `main`, abstracted over IO: if no events resolved,
`main` returns before writing (`none`); otherwise the sorted event list is
what gets serialized to `events.json` / `events.ics` (`some`). -/
def mainOutput (entries : List EventEntry) (y : Int) : Option (List EventOut) :=
  let evs := resolveEvents entries y
  if evs.isEmpty then none
  else some (evs.mergeSort (fun a b => a.start_date ≤ b.start_date))

/-! ## Basic facts about month lengths and normalization -/

/-- A normalized date: month in range and day within the month. -/
def validD (x : CDate) : Prop :=
  1 ≤ x.month ∧ x.month ≤ 12 ∧ 1 ≤ x.day ∧ x.day ≤ monthLen x.year x.month

theorem monthLen_ge28 (y : Int) (m : Nat) : 28 ≤ monthLen y m := by
  unfold monthLen
  split
  · split <;> omega
  · split <;> omega

theorem monthLen_le31 (y : Int) (m : Nat) : monthLen y m ≤ 31 := by
  unfold monthLen
  split
  · split <;> omega
  · split <;> omega

theorem monthLen_12 (y : Int) : monthLen y 12 = 31 := by
  norm_num [monthLen]

theorem normCarryGo_congr : ∀ (f f' : Nat) (y : Int) (m d : Nat),
    d ≤ f → d ≤ f' → normCarryGo f y m d = normCarryGo f' y m d := by
  intro f
  induction f with
  | zero =>
    intro f' y m d hf _
    have hd : d = 0 := by omega
    subst hd
    cases f' with
    | zero => rfl
    | succ k => simp [normCarryGo, Nat.zero_le]
  | succ k ih =>
    intro f' y m d hf hf'
    cases f' with
    | zero =>
      have hd : d = 0 := by omega
      subst hd
      simp [normCarryGo, Nat.zero_le]
    | succ k' =>
      simp only [normCarryGo]
      split
      · rfl
      · split
        · next h12 =>
          subst h12
          have h31 := monthLen_12 y
          apply ih <;> omega
        · have h28 := monthLen_ge28 y m
          apply ih <;> omega

/-- The defining one-step equation of `normCarry`, fuel-free. -/
theorem normCarry_eq (y : Int) (m d : Nat) :
    normCarry y m d =
      if d ≤ monthLen y m then ⟨y, m, d⟩
      else if m = 12 then normCarry (y + 1) 1 (d - 31)
      else normCarry y (m + 1) (d - monthLen y m) := by
  unfold normCarry
  cases d with
  | zero => simp [normCarryGo, Nat.zero_le]
  | succ n =>
    simp only [normCarryGo]
    split
    · rfl
    · split
      · next hlen h12 =>
        subst h12
        have h31 := monthLen_12 y
        exact normCarryGo_congr n (n + 1 - 31) (y + 1) 1 (n + 1 - 31)
          (by omega) (by omega)
      · next hlen h12 =>
        have h28 := monthLen_ge28 y m
        exact normCarryGo_congr n (n + 1 - monthLen y m) y (m + 1)
          (n + 1 - monthLen y m) (by omega) (by omega)

theorem normCarryGo_valid : ∀ (f : Nat) (y : Int) (m d : Nat),
    d ≤ f → 1 ≤ m → m ≤ 12 → 1 ≤ d → validD (normCarryGo f y m d) := by
  intro f
  induction f with
  | zero => intro y m d h1 _ _ h4; exact absurd (h4.trans h1) (by omega)
  | succ k ih =>
    intro y m d hf h1 h2 h3
    simp only [normCarryGo]
    split
    · next h => exact ⟨h1, h2, h3, h⟩
    · split
      · next hlen h12 =>
        subst h12
        have h31 := monthLen_12 y
        apply ih <;> omega
      · next hlen h12 =>
        have h28 := monthLen_ge28 y m
        apply ih <;> omega

theorem normCarry_valid (y : Int) (m d : Nat)
    (h1 : 1 ≤ m) (h2 : m ≤ 12) (h3 : 1 ≤ d) : validD (normCarry y m d) :=
  normCarryGo_valid d y m d (Nat.le_refl d) h1 h2 h3

theorem normCarryGo_year : ∀ (f : Nat) (y : Int) (m d : Nat),
    d ≤ f → 1 ≤ m → m ≤ 12 → d ≤ 31 → (normCarryGo f y m d).year = y := by
  intro f
  induction f with
  | zero => intro y m d _ _ _ _; rfl
  | succ k ih =>
    intro y m d hf h1 h2 h3
    simp only [normCarryGo]
    split
    · rfl
    · split
      · next hlen h12 =>
        subst h12
        have h31 := monthLen_12 y
        omega
      · next hlen h12 =>
        have h28 := monthLen_ge28 y m
        apply ih <;> omega

/-- Normalizing a day count that fits in a single month-carry never leaves
the given year: this is why `setFullYear(Y)` lands in year `Y` for every
normalized date. -/
theorem normCarry_year (y : Int) (m d : Nat)
    (h1 : 1 ≤ m) (h2 : m ≤ 12) (h3 : d ≤ 31) : (normCarry y m d).year = y :=
  normCarryGo_year d y m d (Nat.le_refl d) h1 h2 h3

theorem normBorrowGo_valid : ∀ (f : Nat) (y : Int) (m : Nat) (d : Int),
    (1 - d).toNat ≤ f → 1 ≤ m → m ≤ 12 → validD (normBorrowGo f y m d) := by
  intro f
  induction f with
  | zero =>
    intro y m d hf h1 h2
    simp only [normBorrowGo]
    exact normCarry_valid y m d.toNat h1 h2 (by omega)
  | succ k ih =>
    intro y m d hf h1 h2
    simp only [normBorrowGo]
    split
    · next h => exact normCarry_valid y m d.toNat h1 h2 (by omega)
    · split
      · next hd hm => apply ih <;> omega
      · next hd hm =>
        have h28 := monthLen_ge28 y (m - 1)
        apply ih <;> omega

theorem normBorrow_valid (y : Int) (m : Nat) (d : Int)
    (h1 : 1 ≤ m) (h2 : m ≤ 12) : validD (normBorrow y m d) :=
  normBorrowGo_valid (1 - d).toNat y m d (Nat.le_refl _) h1 h2

theorem jsDate_valid (y : Int) (m d : Nat)
    (h1 : 1 ≤ m) (h2 : m ≤ 12) : validD (jsDate y m d) :=
  normBorrow_valid _ m _ h1 h2

theorem setYear_valid (x : CDate) (Y : Int) (h : validD x) :
    validD (setYear x Y) :=
  normCarry_valid Y x.month x.day h.1 h.2.1 h.2.2.1

theorem setYear_year (x : CDate) (Y : Int) (h : validD x) :
    (setYear x Y).year = Y := by
  have h31 := monthLen_le31 x.year x.month
  exact normCarry_year Y x.month x.day h.1 h.2.1 (h.2.2.2.trans h31)

theorem dltb_of_year_lt (a b : CDate) (h : a.year < b.year) : dltb a b = true := by
  unfold dltb
  rw [if_pos h]

theorem dltb_of_month_lt (a b : CDate) (hy : a.year = b.year)
    (hm : a.month < b.month) : dltb a b = true := by
  unfold dltb
  rw [if_neg (by omega), if_neg (by omega), if_pos hm]

theorem dltb_of_day_lt (a b : CDate) (hy : a.year = b.year)
    (hm : a.month = b.month) (hd : a.day < b.day) : dltb a b = true := by
  unfold dltb
  rw [if_neg (by omega), if_neg (by omega), if_neg (by omega), if_neg (by omega)]
  exact decide_eq_true hd

/-- Advancing a normalized date by one day yields a strictly later date. -/
theorem dltb_nextDay (x : CDate) (h : validD x) : dltb x (nextDay x) = true := by
  obtain ⟨h1, h2, h3, h4⟩ := h
  unfold nextDay
  rw [normCarry_eq]
  split
  · next hle =>
    exact dltb_of_day_lt _ _ rfl rfl (by show x.day < x.day + 1; omega)
  · split
    · next hlen h12 =>
      rw [h12] at hlen h4
      have h31 := monthLen_12 x.year
      have hd : x.day + 1 - 31 = 1 := by omega
      rw [hd, normCarry_eq, if_pos (by have := monthLen_ge28 (x.year + 1) 1; omega)]
      exact dltb_of_year_lt _ _ (by show x.year < x.year + 1; omega)
    · next hlen h12 =>
      have h28 := monthLen_ge28 x.year x.month
      have hd : x.day + 1 - monthLen x.year x.month = 1 := by omega
      rw [hd, normCarry_eq,
        if_pos (by have := monthLen_ge28 x.year (x.month + 1); omega)]
      exact dltb_of_month_lt _ _ rfl (by show x.month < x.month + 1; omega)

/-! ## Search-loop lemmas: `find?` with break vs `foldl` without break -/

theorem find?_eq_head?_filter {α : Type} (p : α → Bool) :
    ∀ l : List α, l.find? p = (l.filter p).head? := by
  intro l
  induction l with
  | nil => rfl
  | cons a t ih =>
    cases h : p a with
    | true =>
      rw [List.find?_cons_of_pos _ h, List.filter_cons_of_pos h]
      rfl
    | false =>
      rw [List.find?_cons_of_neg _ (by simp [h]),
        List.filter_cons_of_neg (by simp [h])]
      exact ih

theorem getLast?_ne_none {α : Type} :
    ∀ (b : α) (t : List α), (b :: t).getLast? ≠ none := by
  intro b t
  induction t generalizing b with
  | nil => simp
  | cons c t' ih => rw [List.getLast?_cons_cons]; exact ih c

theorem getLast?_cons_elim {α : Type} (a : α) (l : List α) :
    (a :: l).getLast? = (l.getLast?).elim (some a) some := by
  cases l with
  | nil => rfl
  | cons b t =>
    rw [List.getLast?_cons_cons]
    cases h : (b :: t).getLast? with
    | none => exact absurd h (getLast?_ne_none b t)
    | some v => rfl

theorem mem_of_getLast?_eq {α : Type} :
    ∀ (l : List α) (a : α), l.getLast? = some a → a ∈ l := by
  intro l
  induction l with
  | nil => intro a h; cases h
  | cons x t ih =>
    intro a h
    cases t with
    | nil =>
      simp at h
      subst h
      exact List.mem_cons_self x []
    | cons y t' =>
      rw [List.getLast?_cons_cons] at h
      exact List.mem_cons_of_mem x (ih a h)

/-- A fold that overwrites its accumulator at every satisfying element
(the break-less month loop of lines 69-72) returns the last satisfying
element, or its initial value if there is none. -/
theorem foldl_pick {α β : Type} (c : α × β → Bool) :
    ∀ (l : List (α × β)) (init : Option β),
      l.foldl (fun acc p => if c p then some p.2 else acc) init
        = (((l.filter c).map Prod.snd).getLast?).elim init some := by
  intro l
  induction l with
  | nil => intro init; rfl
  | cons q t ih =>
    intro init
    rw [List.foldl_cons, ih]
    cases h : c q with
    | false => rw [List.filter_cons_of_neg (by simp [h]), if_neg (by simp [h])]
    | true =>
      rw [List.filter_cons_of_pos (by simp [h]), List.map_cons,
        getLast?_cons_elim, if_pos (by simp [h])]
      cases hl : ((t.filter c).map Prod.snd).getLast? with
      | none => rfl
      | some v => rfl

/-! ## Month values produced by the searches are month numbers -/

theorem monthTable_bounds : ∀ p ∈ monthTable, 1 ≤ p.2 ∧ p.2 ≤ 12 := by decide

theorem findMonthLast_bounds (l : List Char) (n : Nat)
    (h : findMonthLast l = some n) : 1 ≤ n ∧ n ≤ 12 := by
  unfold findMonthLast at h
  rw [foldl_pick] at h
  cases hl : ((monthTable.filter fun p =>
      containsSub (lowerL l) p.1).map Prod.snd).getLast? with
  | none => rw [hl] at h; cases h
  | some v =>
    rw [hl] at h
    simp only [Option.elim] at h
    injection h with h
    subst h
    have hv := mem_of_getLast?_eq _ v hl
    obtain ⟨p, hpf, hp2⟩ := List.mem_map.mp hv
    have hmem := List.mem_of_mem_filter hpf
    have := monthTable_bounds p hmem
    omega

theorem findMonthFirst_bounds (l : List Char) (n : Nat)
    (h : findMonthFirst l = some n) : 1 ≤ n ∧ n ≤ 12 := by
  unfold findMonthFirst at h
  rw [Option.map_eq_some'] at h
  obtain ⟨p, hp, hpn⟩ := h
  have hmem := List.mem_of_find?_eq_some hp
  have := monthTable_bounds p hmem
  omega

theorem startMonthFor_bounds (t a : List Char) (n : Nat)
    (h : startMonthFor t a = some n) : 1 ≤ n ∧ n ≤ 12 := by
  unfold startMonthFor at h
  split at h
  · next m heq =>
    injection h with h
    subst h
    exact findMonthLast_bounds a m heq
  · exact findMonthFirst_bounds t n h

theorem endMonthFor_bounds (t a b : List Char) (n : Nat)
    (h : endMonthFor t a b = some n) : 1 ≤ n ∧ n ≤ 12 := by
  unfold endMonthFor at h
  split at h
  · next m heq =>
    injection h with h
    subst h
    exact findMonthLast_bounds b m heq
  · exact startMonthFor_bounds t a n h

theorem rangeComps_bounds (t : List Char) (sm sd em ed : Nat)
    (h : rangeComps t = some (sm, sd, em, ed)) :
    (1 ≤ sm ∧ sm ≤ 12) ∧ (1 ≤ em ∧ em ≤ 12) := by
  simp only [rangeComps] at h
  split at h
  · split at h
    · next sd' ed' sm' em' h1 h2 h3 h4 =>
      cases h
      exact ⟨startMonthFor_bounds _ _ _ h3, endMonthFor_bounds _ _ _ _ h4⟩
    · cases h
  · cases h

/-- Every date pair produced by the resolver consists of normalized dates. -/
theorem parseStartLast_valid (s : String) (y : Int) (p : CDate × CDate)
    (h : parseStartLast s y = some p) : validD p.1 ∧ validD p.2 := by
  unfold parseStartLast at h
  split at h
  · cases h
  · next t y' heq =>
    split at h
    · unfold rangeCore at h
      split at h
      · next sm sd em ed hcomps =>
        obtain ⟨hb1, hb2⟩ := rangeComps_bounds t sm sd em ed hcomps
        cases h
        refine ⟨jsDate_valid _ _ _ hb1.1 hb1.2, ?_⟩
        dsimp only
        split
        · exact setYear_valid _ _ (jsDate_valid _ _ _ hb2.1 hb2.2)
        · exact jsDate_valid _ _ _ hb2.1 hb2.2
      · cases h
    · rw [Option.map_eq_some'] at h
      obtain ⟨d0, hd0, hp⟩ := h
      unfold singleCore at hd0
      split at hd0
      · next m dd hm hd =>
        cases hd0
        cases hp
        have := findMonthFirst_bounds t m hm
        exact ⟨jsDate_valid _ _ _ this.1 this.2, jsDate_valid _ _ _ this.1 this.2⟩
      · cases hd0

/-- `Option.elim` with the identity continuation is the identity. -/
theorem elim_none_some {α : Type} (o : Option α) : o.elim none some = o := by
  cases o <;> rfl

/-! ## Claims -/

/-- C6: for every context year and every phrase that (after ordinal
stripping) case-insensitively contains "not announced yet", `parseDate`
returns the unresolved sentinel immediately — even if the phrase also
contains a parseable date; in particular `parseDate "Not announced yet" y`
is unresolved for every `y`. -/
theorem c6_not_announced :
    (∀ (s : String) (y : Int),
      containsSub (lowerL (stripOrd s.data)) "not announced yet".data = true →
      parseDate s y = none) ∧
    (∀ y : Int, parseDate "Not announced yet" y = none) := by
  constructor
  · intro s y h
    simp [parseDate, parseDateDates, parseStartLast, preprocess, h]
  · intro y
    rfl

/-- Witness for C6: a phrase containing both the sentinel text and a
parseable date still resolves to `none`. -/
theorem c6_witness :
    parseDate "Not announced yet, 4 March" 2030 = none :=
  c6_not_announced.1 "Not announced yet, 4 March" 2030 (by decide)

/-- C9: with an explicit context year the resolver's result does not depend
on the ambient current year that only feeds the omitted-argument default of
`parseDate`'s `year` parameter. -/
theorem c9_deterministic :
    ∀ (s : String) (y n1 n2 : Int),
      parseDateDefaulted s (some y) n1 = parseDateDefaulted s (some y) n2 :=
  fun _ _ _ _ => rfl

/-- C7: no days-in-month bounds validation — "31 April" is passed to date
construction and silently rolls into May, producing a non-null result
rather than the unresolved sentinel. -/
theorem c7_day_overflow :
    parseDate "31 April" 2025 = some ("2025-05-01", "2025-05-02") ∧
    parseDateDates "31 April" 2025 = some (⟨2025, 5, 1⟩, ⟨2025, 5, 2⟩) := by
  decide

/-- C3 counterexample: `parseDate "March 2026" y` is *not* the unresolved
sentinel.  The year override only strips the literal `", 2026"` (comma
included); with no comma in the phrase the digits survive and are read as
the day number, so date construction overflows to 2031-09-16. -/
theorem c3_cex :
    parseDate "March 2026" 2025 ≠ none ∧
    parseDate "March 2026" 2025 = some ("2031-09-16", "2031-09-17") := by
  decide

/-- C3 amended: for every context year, `parseDate "March 2026" y` resolves
(the parsed year 2026 replaces `y`, the digit run "2026" becomes the day),
yielding start 2031-09-16 and end 2031-09-17. -/
theorem c3_amended :
    ∀ y : Int, parseDate "March 2026" y = some ("2031-09-16", "2031-09-17") :=
  fun _ => rfl

/-- C4: when the start part of a range has no month name, the start month
is the first table entry (in the fixed january..december order) occurring
anywhere in the processed phrase; a missing end month reuses the start
month; and `parseDate "18 - 19 January" 2025` resolves to
2025-01-18 / 2025-01-20. -/
theorem c4_whole_phrase_fallback :
    (∀ (t a : List Char), findMonthLast a = none →
      startMonthFor t a =
        ((monthTable.filter fun p => containsSub (lowerL t) p.1).map
          Prod.snd).head?) ∧
    (∀ (t a b : List Char), findMonthLast b = none →
      endMonthFor t a b = startMonthFor t a) ∧
    parseDate "18 - 19 January" 2025 = some ("2025-01-18", "2025-01-20") := by
  refine ⟨?_, ?_, by decide⟩
  · intro t a h
    unfold startMonthFor
    rw [h]
    show findMonthFirst t = _
    unfold findMonthFirst
    rw [find?_eq_head?_filter]
    exact (List.head?_map _ _).symm
  · intro t a b h
    unfold endMonthFor
    rw [h]

/-- Witness for C4 at the claim's phrase: the start part "18" has no month,
so the whole-phrase fallback fires; a month-less end part reuses the start
month. -/
theorem c4_witness :
    startMonthFor "18 - 19 January".data "18".data =
      ((monthTable.filter fun p =>
        containsSub (lowerL "18 - 19 January".data) p.1).map Prod.snd).head? ∧
    endMonthFor "18 - 19 January".data "18".data "19".data =
      startMonthFor "18 - 19 January".data "18".data :=
  ⟨c4_whole_phrase_fallback.1 _ _ (by decide),
   c4_whole_phrase_fallback.2.1 _ _ _ (by decide)⟩

/-- C5: a separator-free phrase whose processed form contains a month name
and a digit run resolves to that date as start and that date plus one day
as end; in particular `parseDate "4th March" 2025` is
2025-03-04 / 2025-03-05. -/
theorem c5_single_day :
    (∀ (s : String) (y : Int) (t : List Char) (y' : Int) (m d : Nat),
      preprocess s y = some (t, y') → hasSep t = false →
      findMonthFirst t = some m → firstNum t = some d →
      parseDate s y =
        some (isoOf (jsDate y' m d), isoOf (nextDay (jsDate y' m d)))) ∧
    parseDate "4th March" 2025 = some ("2025-03-04", "2025-03-05") := by
  refine ⟨?_, by decide⟩
  intro s y t y' m d hpre hsep hm hd
  simp [parseDate, parseDateDates, parseStartLast, singleCore, hpre, hsep, hm, hd]

/-- Witness for C5 at the claim's phrase. -/
theorem c5_witness :
    parseDate "4th March" 2025 =
      some (isoOf (jsDate 2025 3 4), isoOf (nextDay (jsDate 2025 3 4))) :=
  c5_single_day.1 "4th March" 2025 "4 March".data 2025 3 4
    (by decide) (by decide) (by decide) (by decide)

/-- C10: the two branches tie-break multi-month strings differently.  The
range branch's per-part search (no `break`) returns the *last* table entry
contained in the part — for two or more contained month names, the one
latest in january..december order — while the single-day branch's search
(with `break`) returns the *first* such entry.  Concretely, "1 May June"
resolves to May as a single-day phrase, but as the start part of
"1 May June - 2" it resolves to June. -/
theorem c10_tie_breaking :
    (∀ l : List Char, findMonthLast l =
      ((monthTable.filter fun p => containsSub (lowerL l) p.1).map
        Prod.snd).getLast?) ∧
    (∀ l : List Char, findMonthFirst l =
      ((monthTable.filter fun p => containsSub (lowerL l) p.1).map
        Prod.snd).head?) ∧
    parseDate "1 May June" 2025 = some ("2025-05-01", "2025-05-02") ∧
    parseDate "1 May June - 2" 2025 = some ("2025-06-01", "2025-06-03") := by
  refine ⟨?_, ?_, by decide, by decide⟩
  · intro l
    unfold findMonthLast
    rw [foldl_pick]
    exact elim_none_some _
  · intro l
    unfold findMonthFirst
    rw [find?_eq_head?_filter]
    exact (List.head?_map _ _).symm

/-- C2 counterexample: `endDate ≥ startDate` is not an invariant of the
resolver.  For the descending range "10 - 5 March" the returned end date
2025-03-06 is strictly before the returned start date 2025-03-10. -/
theorem c2_cex :
    parseDate "10 - 5 March" 2025 = some ("2025-03-10", "2025-03-06") ∧
    parseDateDates "10 - 5 March" 2025 = some (⟨2025, 3, 10⟩, ⟨2025, 3, 6⟩) ∧
    dltb ⟨2025, 3, 6⟩ ⟨2025, 3, 10⟩ = true := by
  decide

/-- C2 amended: whenever the resolver returns a non-null pair, the end date
is exactly one calendar day after the resolved last event day (exclusive
end), hence strictly later than it; the claim's additional guarantee
`endDate ≥ startDate` does not hold (see the counterexample). -/
theorem c2_exclusive_end :
    ∀ (s : String) (y : Int) (p : CDate × CDate),
      parseStartLast s y = some p →
      parseDateDates s y = some (p.1, nextDay p.2) ∧
      dltb p.2 (nextDay p.2) = true := by
  intro s y p h
  refine ⟨?_, dltb_nextDay p.2 (parseStartLast_valid s y p h).2⟩
  unfold parseDateDates
  rw [h]
  rfl

/-- Witness for C2 at "4 March": the resolved last day is 2025-03-04 and
the returned end date is the day after. -/
theorem c2_witness :
    parseDateDates "4 March" 2025 = some (⟨2025, 3, 4⟩, nextDay ⟨2025, 3, 4⟩) ∧
    dltb ⟨2025, 3, 4⟩ (nextDay ⟨2025, 3, 4⟩) = true :=
  c2_exclusive_end "4 March" 2025 (⟨2025, 3, 4⟩, ⟨2025, 3, 4⟩) (by decide)

/-- C1 counterexample: the rollover does not always advance the end date's
year by exactly one.  In "5 February - 0 January" the end date constructs
as 2024-12-31 (day 0 borrows); the rollover condition holds
(end < start and January(1) < February(2)), but `setFullYear(2026)` moves
the end date's year from 2024 to 2026 — an advance of two — and the phrase
resolves to end "2027-01-01". -/
theorem c1_cex :
    rangeComps "5 February - 0 January".data = some (2, 5, 1, 0) ∧
    dltb (jsDate 2025 1 0) (jsDate 2025 2 5) = true ∧ (1 : Nat) < 2 ∧
    (jsDate 2025 1 0).year = 2024 ∧
    (setYear (jsDate 2025 1 0) (2025 + 1)).year = 2026 ∧
    parseDate "5 February - 0 January" 2025 = some ("2025-02-05", "2027-01-01") := by
  decide

/-- C1 amended: for every range phrase with both days and both months
resolved, the end date's year advances by exactly one iff the constructed
end date is before the constructed start date AND the end month number is
strictly smaller than the start month number AND the constructed end
date's year equals the working year (the code sets the year to
`year + 1` absolutely, which is an advance of exactly one only in that
case); in particular `parseDate "28 December - 2 January" 2025` returns
start 2025-12-28 and end 2026-01-03. -/
theorem c1_rollover :
    (∀ (s : String) (y : Int) (t : List Char) (y' : Int) (sm sd em ed : Nat),
      preprocess s y = some (t, y') → hasSep t = true →
      rangeComps t = some (sm, sd, em, ed) →
      parseDate s y = some (isoOf (jsDate y' sm sd),
        isoOf (nextDay
          (if dltb (jsDate y' em ed) (jsDate y' sm sd) && decide (em < sm)
            then setYear (jsDate y' em ed) (y' + 1) else jsDate y' em ed))) ∧
      ((if dltb (jsDate y' em ed) (jsDate y' sm sd) && decide (em < sm)
          then setYear (jsDate y' em ed) (y' + 1)
          else jsDate y' em ed).year = (jsDate y' em ed).year + 1 ↔
        (dltb (jsDate y' em ed) (jsDate y' sm sd) = true ∧ em < sm ∧
          (jsDate y' em ed).year = y'))) ∧
    parseDate "28 December - 2 January" 2025 = some ("2025-12-28", "2026-01-03") := by
  refine ⟨?_, by decide⟩
  intro s y t y' sm sd em ed hpre hsep hcomps
  constructor
  · simp [parseDate, parseDateDates, parseStartLast, rangeCore, hpre, hsep, hcomps]
  · have hb := rangeComps_bounds t sm sd em ed hcomps
    have hval : validD (jsDate y' em ed) := jsDate_valid _ _ _ hb.2.1 hb.2.2
    by_cases hc :
        (dltb (jsDate y' em ed) (jsDate y' sm sd) && decide (em < sm)) = true
    · rw [if_pos hc, setYear_year _ _ hval]
      rw [Bool.and_eq_true, decide_eq_true_eq] at hc
      constructor
      · intro h
        exact ⟨hc.1, hc.2, by omega⟩
      · intro h
        omega
    · rw [if_neg hc]
      constructor
      · intro h
        omega
      · intro h
        rw [Bool.and_eq_true, decide_eq_true_eq] at hc
        exact absurd ⟨h.1, h.2.1⟩ hc

/-- Witness for C1 at the claim's phrase "28 December - 2 January":
components (December 12 / day 28, January 1 / day 2), rollover fires, and
the general theorem instantiates to the concrete result. -/
theorem c1_witness :
    parseDate "28 December - 2 January" 2025 = some (isoOf (jsDate 2025 12 28),
      isoOf (nextDay
        (if dltb (jsDate 2025 1 2) (jsDate 2025 12 28) && decide ((1 : Nat) < 12)
          then setYear (jsDate 2025 1 2) (2025 + 1) else jsDate 2025 1 2))) ∧
    ((if dltb (jsDate 2025 1 2) (jsDate 2025 12 28) && decide ((1 : Nat) < 12)
        then setYear (jsDate 2025 1 2) (2025 + 1)
        else jsDate 2025 1 2).year = (jsDate 2025 1 2).year + 1 ↔
      (dltb (jsDate 2025 1 2) (jsDate 2025 12 28) = true ∧ (1 : Nat) < 12 ∧
        (jsDate 2025 1 2).year = 2025)) :=
  c1_rollover.1 "28 December - 2 January" 2025 "28 December - 2 January".data
    2025 12 28 1 2 (by decide) (by decide) (by decide)

/-- C8: a run that resolves zero events — every extracted phrase yields the
unresolved sentinel, or there are no entries at all — produces no output at
all (`main` returns before writing either file). -/
theorem c8_zero_events :
    (∀ (entries : List EventEntry) (y : Int),
      (∀ e ∈ entries, parseDate e.date y = none) → mainOutput entries y = none) ∧
    (∀ y : Int, mainOutput [] y = none) := by
  constructor
  · intro entries y h
    unfold mainOutput
    have hnil : resolveEvents entries y = [] := by
      unfold resolveEvents
      rw [List.filterMap_eq_nil_iff]
      intro e he
      unfold resolveEntry
      rw [h e he]
    rw [hnil]
    rfl
  · intro y
    rfl

/-- Witness for C8: a single entry whose date phrase is the "not announced
yet" sentinel yields no output files. -/
theorem c8_witness :
    mainOutput [⟨"Event", "https://example.org", "Not announced yet",
      "Online", "Earth"⟩] 2025 = none :=
  c8_zero_events.1 _ 2025 (by decide)
